import Mathlib

/-!
Verification development for the jingle sleigh FFI layer
(`jingle_sleigh/src/ffi/cpp`).  The C++ sources are embedded shallowly:
pure data flow becomes Lean functions, the caller-supplied byte buffer of
`loadFill` becomes an explicit function `Nat → Nat`, C++ exceptions become
`Except` values, and the exception bridge of `exception.h` is embedded as a
predicate on thrown exceptions.
-/

namespace Jingle

/-- Address space metadata handle; identity is the stable catalog index
(`AddrSpaceHandle::getIndex`). -/
structure AddrSpace where
  index : Nat
deriving DecidableEq, Repr

/-- An engine address: a space together with an offset
(`ghidra::Address`). -/
structure Address where
  space : AddrSpace
  offset : Nat
deriving DecidableEq, Repr

/-- Exceptions that can cross the C++ side, per `exception.h` and the
`throw` sites in the sources.  `dataUnavail` carries the requested address
and length that `DummyLoadImage::loadFill` formats into its message;
`rawString` is a bare `const char *` throw such as the one in
`AddrSpaceManagerHandle::getSpaceFromPointer`. -/
inductive CppException where
  | lowlevel (msg : String)
  | decoder (msg : String)
  | dataUnavail (address length : Nat)
  | stdExc (msg : String)
  | rawString (msg : String)
deriving DecidableEq, Repr

/-- The `rust::behavior::trycatch` bridge of `exception.h` catches
`LowlevelError`, `DecoderError`, `DataUnavailError` and `std::exception`;
a bare string throw matches none of its handlers, so (the bridge being
`noexcept`) it terminates the process.  `caughtByBridge e = false` means
the exception is fatal rather than a recoverable typed error. -/
def caughtByBridge : CppException → Bool
  | .rawString _ => false
  | _ => true

/-- One image section: a base address plus a byte buffer
(`Image`/`ImageSection` of `image.rs.h` as used by the C++). -/
structure ImageSection where
  base_address : Nat
  data : List Nat
deriving DecidableEq, Repr

/-- A segmented image: an ordered list of sections. -/
structure Image where
  sections : List ImageSection
deriving DecidableEq, Repr

/-- The caller's byte buffer (`ghidra::uint1 *ptr`), addressed by index. -/
abbrev Buf := Nat → Nat

/-- `std::memcpy(ptr, src, src.length)`: overwrite the buffer prefix with
`src` (both `loadFill` bodies always copy to the start of the buffer). -/
def memcpy0 (buf : Buf) (src : List Nat) : Buf :=
  fun i => if i < src.length then src.getD i 0 else buf i

/-- `for (i = lo; i < hi; ++i) ptr[i] = 0`. -/
def zeroFillFrom (buf : Buf) (lo hi : Nat) : Buf :=
  fun i => if lo ≤ i ∧ i < hi then 0 else buf i

/-- Loop state of `DummyLoadImage::loadFill` in `dummy_load_image.cpp`:
the buffer, the advancing address cursor `offset`, and `bytes_written`. -/
structure ScanState where
  buf : Buf
  offset : Nat
  bytes_written : Nat

/-- One iteration of the section loop of `DummyLoadImage::loadFill`
(`dummy_load_image.cpp` lines 14–24): a section is consulted only when its
interval contains the current cursor; it then copies
`min(size, end - offset)` bytes starting at `offset - start` to the start
of the buffer and advances the cursor and the written count. -/
def scanStep (size : Nat) (st : ScanState) (s : ImageSection) : ScanState :=
  if s.base_address ≤ st.offset ∧ st.offset < s.base_address + s.data.length then
    { buf := memcpy0 st.buf ((s.data.drop (st.offset - s.base_address)).take
        (min size (s.base_address + s.data.length - st.offset)))
      offset := st.offset + min size (s.base_address + s.data.length - st.offset)
      bytes_written :=
        st.bytes_written + min size (s.base_address + s.data.length - st.offset) }
  else st

/-- The whole section loop of `dummy_load_image.cpp`. -/
def scanImage (img : Image) (size addr : Nat) (buf0 : Buf) : ScanState :=
  img.sections.foldl (scanStep size) ⟨buf0, addr, 0⟩

/-- `DummyLoadImage::loadFill` as defined in `dummy_load_image.cpp`
(lines 11–34): run the section scan, zero-fill buffer indices from
`bytes_written` to `size`, and throw `DataUnavailError` when no bytes at
all were copied. -/
def loadFillDummy (img : Image) (size addr : Nat) (buf0 : Buf) :
    Except CppException Buf :=
  let st := scanImage img size addr buf0
  let filled := zeroFillFrom st.buf st.bytes_written size
  if st.bytes_written = 0 then .error (.dataUnavail addr size) else .ok filled

/-- Loop state of the `DummyLoadImage::loadFill` copy in `context.cpp`,
which keeps no `bytes_written` counter. -/
structure ScanStateC where
  buf : Buf
  offset : Nat

/-- One iteration of the section loop of the `context.cpp` copy of
`loadFill` (lines 66–75); identical to `scanStep` except that no written
count is tracked. -/
def scanStepC (size : Nat) (st : ScanStateC) (s : ImageSection) : ScanStateC :=
  if s.base_address ≤ st.offset ∧ st.offset < s.base_address + s.data.length then
    { buf := memcpy0 st.buf ((s.data.drop (st.offset - s.base_address)).take
        (min size (s.base_address + s.data.length - st.offset)))
      offset := st.offset + min size (s.base_address + s.data.length - st.offset) }
  else st

/-- The whole section loop of the `context.cpp` copy. -/
def scanImageC (img : Image) (size addr : Nat) (buf0 : Buf) : ScanStateC :=
  img.sections.foldl (scanStepC size) ⟨buf0, addr⟩

/-- `DummyLoadImage::loadFill` as defined in `context.cpp` (lines 64–79):
run the scan, then zero-fill buffer indices from the final address cursor
`offset` (not the written count) up to `size`; never throws. -/
def loadFillContext (img : Image) (size addr : Nat) (buf0 : Buf) :
    Except CppException Buf :=
  let st := scanImageC img size addr buf0
  .ok (zeroFillFrom st.buf st.offset size)

/-- Number of bytes the `dummy_load_image.cpp` scan copies. -/
def bytesCopied (img : Image) (size addr : Nat) (buf0 : Buf) : Nat :=
  (scanImage img size addr buf0).bytes_written

/-- A section's half-open interval contains the address `a`. -/
def containsAddr (s : ImageSection) (a : Nat) : Prop :=
  s.base_address ≤ a ∧ a < s.base_address + s.data.length

instance (s : ImageSection) (a : Nat) : Decidable (containsAddr s a) := by
  unfold containsAddr; infer_instance

/-- A section's interval intersects the requested window `[a, a+n)`. -/
def intersects (s : ImageSection) (a n : Nat) : Prop :=
  max a s.base_address < min (a + n) (s.base_address + s.data.length)

instance (s : ImageSection) (a n : Nat) : Decidable (intersects s a n) := by
  unfold intersects; infer_instance

theorem scanStep_bw_le (size : Nat) (st : ScanState) (s : ImageSection) :
    st.bytes_written ≤ (scanStep size st s).bytes_written := by
  unfold scanStep
  split
  · exact Nat.le_add_right _ _
  · exact Nat.le_refl _

theorem scanStep_shift (size : Nat) (st : ScanState) (s : ImageSection) :
    (scanStep size st s).offset + st.bytes_written =
      (scanStep size st s).bytes_written + st.offset := by
  unfold scanStep
  split
  · show st.offset + _ + st.bytes_written = st.bytes_written + _ + st.offset
    omega
  · exact Nat.add_comm _ _

theorem scanStep_of_contains (size : Nat) (st : ScanState) (s : ImageSection)
    (h : containsAddr s st.offset) :
    scanStep size st s =
      ⟨memcpy0 st.buf ((s.data.drop (st.offset - s.base_address)).take
          (min size (s.base_address + s.data.length - st.offset))),
        st.offset + min size (s.base_address + s.data.length - st.offset),
        st.bytes_written + min size (s.base_address + s.data.length - st.offset)⟩ := by
  unfold containsAddr at h
  unfold scanStep
  rw [if_pos h]

theorem scanStep_of_not_contains (size : Nat) (st : ScanState) (s : ImageSection)
    (h : ¬ containsAddr s st.offset) :
    scanStep size st s = st := by
  unfold containsAddr at h
  unfold scanStep
  rw [if_neg h]

theorem scan_bw_mono (size : Nat) (l : List ImageSection) (st : ScanState) :
    st.bytes_written ≤ (l.foldl (scanStep size) st).bytes_written := by
  induction l generalizing st with
  | nil => exact Nat.le_refl _
  | cons s rest ih =>
    exact Nat.le_trans (scanStep_bw_le size st s) (ih (scanStep size st s))

theorem scan_offset_eq_bw (size : Nat) (l : List ImageSection) (st : ScanState) :
    (l.foldl (scanStep size) st).offset + st.bytes_written =
      (l.foldl (scanStep size) st).bytes_written + st.offset := by
  induction l generalizing st with
  | nil => exact Nat.add_comm _ _
  | cons s rest ih =>
    rw [List.foldl_cons]
    have h1 := ih (scanStep size st s)
    have h2 := scanStep_shift size st s
    omega

theorem scan_unchanged_of_no_contains (size : Nat) (l : List ImageSection)
    (buf : Buf) (addr : Nat) (hall : ∀ s ∈ l, ¬ containsAddr s addr) :
    l.foldl (scanStep size) ⟨buf, addr, 0⟩ = ⟨buf, addr, 0⟩ := by
  induction l with
  | nil => rfl
  | cons s rest ih =>
    rw [List.foldl_cons,
      scanStep_of_not_contains size _ s (hall s (List.mem_cons_self s rest))]
    exact ih fun t ht => hall t (List.mem_cons_of_mem _ ht)

theorem scanStep_bw_pos (size : Nat) (hsz : 0 < size) (st : ScanState)
    (s : ImageSection) (h : containsAddr s st.offset) :
    0 < (scanStep size st s).bytes_written := by
  rw [scanStep_of_contains size st s h]
  show 0 < st.bytes_written + min size (s.base_address + s.data.length - st.offset)
  rcases h with ⟨h1, h2⟩
  omega

theorem scan_bw_pos_of_contains (size : Nat) (hsz : 0 < size)
    (l : List ImageSection) (buf : Buf) (addr : Nat)
    (s₀ : ImageSection) (hmem : s₀ ∈ l) (hc : containsAddr s₀ addr) :
    0 < (l.foldl (scanStep size) ⟨buf, addr, 0⟩).bytes_written := by
  induction l generalizing buf with
  | nil => exact absurd hmem (List.not_mem_nil s₀)
  | cons s rest ih =>
    rw [List.foldl_cons]
    by_cases hcs : containsAddr s addr
    · have hpos := scanStep_bw_pos size hsz ⟨buf, addr, 0⟩ s hcs
      have hmono := scan_bw_mono size rest (scanStep size ⟨buf, addr, 0⟩ s)
      omega
    · rcases List.mem_cons.mp hmem with rfl | hmem'
      · exact absurd hc hcs
      · rw [scanStep_of_not_contains size _ s hcs]
        exact ih buf hmem'

theorem scan_bw_zero_iff (size : Nat) (hsz : 0 < size) (l : List ImageSection)
    (buf : Buf) (addr : Nat) :
    (l.foldl (scanStep size) ⟨buf, addr, 0⟩).bytes_written = 0 ↔
      ∀ s ∈ l, ¬ containsAddr s addr := by
  constructor
  · intro h0 s hs hc
    have := scan_bw_pos_of_contains size hsz l buf addr s hs hc
    omega
  · intro hall
    rw [scan_unchanged_of_no_contains size l buf addr hall]

theorem scanC_eq_scan (size : Nat) (l : List ImageSection) (st : ScanState) :
    l.foldl (scanStepC size) ⟨st.buf, st.offset⟩ =
      ⟨(l.foldl (scanStep size) st).buf, (l.foldl (scanStep size) st).offset⟩ := by
  induction l generalizing st with
  | nil => rfl
  | cons s rest ih =>
    rw [List.foldl_cons, List.foldl_cons]
    have hstep : scanStepC size ⟨st.buf, st.offset⟩ s =
        ⟨(scanStep size st s).buf, (scanStep size st s).offset⟩ := by
      simp only [scanStep, scanStepC]
      by_cases hc : s.base_address ≤ st.offset ∧
          st.offset < s.base_address + s.data.length
      · simp [hc]
      · simp [hc]
    rw [hstep]
    exact ih (scanStep size st s)

/-- C1: evaluation of `DummyLoadImage::loadFill` (`dummy_load_image.cpp`) at
the spec's own example and at the failing input.  On a single section
containing the requested address the documented behaviour holds
(`read(0x1000, 4) = [AA, BB, 00, 00]` with zero-fill), but with a second
section at `0x1002` — which does not even intersect the requested window
`[0x1000, 0x1002)` — the scan matches the advanced cursor and memcpys that
section's bytes over the start of the buffer, so `read(0x1000, 2)` returns
`[CC, DD]` instead of the claimed `[AA, BB]`. -/
theorem loadFillDummy_eval :
    (loadFillDummy ⟨[⟨0x1000, [0xAA, 0xBB]⟩]⟩ 4 0x1000 (fun _ => 0x5E)).toOption.map
        (fun b => [b 0, b 1, b 2, b 3]) = some [0xAA, 0xBB, 0, 0] ∧
    ¬ intersects ⟨0x1002, [0xCC, 0xDD]⟩ 0x1000 2 ∧
    (loadFillDummy ⟨[⟨0x1000, [0xAA, 0xBB]⟩, ⟨0x1002, [0xCC, 0xDD]⟩]⟩ 2 0x1000
        (fun _ => 0x5E)).toOption.map (fun b => [b 0, b 1]) = some [0xCC, 0xDD] :=
  ⟨rfl, by decide, rfl⟩

/-- C2 counterexample: a section intersecting the requested window (so the
range is not entirely unmapped) but not containing its start address copies
nothing, and the call still fails with `DataUnavailable`; this refutes the
claim's identification of "zero bytes copied" with "the entire requested
range is unmapped". -/
theorem loadFillDummy_partial_map_counterexample :
    intersects ⟨2, [0xCC, 0xDD]⟩ 0 4 ∧
    loadFillDummy ⟨[⟨2, [0xCC, 0xDD]⟩]⟩ 4 0 (fun _ => 0) =
      .error (.dataUnavail 0 4) :=
  ⟨by decide, rfl⟩

/-- C2 (amended): `DummyLoadImage::loadFill` fails with
`DataUnavailable{address, length}` iff zero bytes total were copied by the
section scan; when at least one byte was copied it succeeds; and (for a
positive length) zero bytes are copied exactly when no section's interval
contains the requested start address. -/
theorem loadFillDummy_dataUnavailable (img : Image) (size addr : Nat) (buf0 : Buf) :
    (loadFillDummy img size addr buf0 = .error (.dataUnavail addr size) ↔
      bytesCopied img size addr buf0 = 0) ∧
    (bytesCopied img size addr buf0 ≠ 0 →
      ∃ b, loadFillDummy img size addr buf0 = .ok b) ∧
    (0 < size →
      (bytesCopied img size addr buf0 = 0 ↔
        ∀ s ∈ img.sections, ¬ containsAddr s addr)) := by
  refine ⟨?_, ?_, ?_⟩
  · unfold bytesCopied
    simp only [loadFillDummy]
    by_cases h : (scanImage img size addr buf0).bytes_written = 0
    · simp [h]
    · simp [h]
  · intro h
    unfold bytesCopied at h
    simp only [loadFillDummy]
    rw [if_neg h]
    exact ⟨_, rfl⟩
  · intro hsz
    exact scan_bw_zero_iff size hsz img.sections buf0 addr

/-- C2 witness: concrete partial-coverage read that copies two bytes and
therefore succeeds. -/
theorem loadFillDummy_dataUnavailable_witness :
    bytesCopied ⟨[⟨0x1000, [0xAA, 0xBB]⟩]⟩ 2 0x1000 (fun _ => 0) ≠ 0 ∧
    (loadFillDummy ⟨[⟨0x1000, [0xAA, 0xBB]⟩]⟩ 2 0x1000
      (fun _ => 0)).toOption.isSome = true :=
  ⟨by decide, by
    obtain ⟨b, hb⟩ := (loadFillDummy_dataUnavailable ⟨[⟨0x1000, [0xAA, 0xBB]⟩]⟩
      2 0x1000 (fun _ => 0)).2.1 (by decide)
    rw [hb]
    rfl⟩

/-- C10 counterexample: on the empty image the `dummy_load_image.cpp`
definition throws `DataUnavailable` while the `context.cpp` definition
succeeds, so the two definitions are not extensionally equal. -/
theorem loadFill_copies_differ :
    loadFillDummy ⟨[]⟩ 1 0 (fun _ => 0) = .error (.dataUnavail 0 1) ∧
    (loadFillContext ⟨[]⟩ 1 0 (fun _ => 0)).toOption.isSome = true ∧
    loadFillDummy ⟨[]⟩ 1 0 (fun _ => 0) ≠ loadFillContext ⟨[]⟩ 1 0 (fun _ => 0) := by
  refine ⟨rfl, rfl, ?_⟩
  intro h
  have h1 : loadFillDummy ⟨[]⟩ 1 0 (fun _ => 0) = .error (.dataUnavail 0 1) := rfl
  have h2 : loadFillContext ⟨[]⟩ 1 0 (fun _ => 0) =
      .ok (zeroFillFrom (fun _ => 0) 0 1) := rfl
  rw [h1, h2] at h
  exact Except.noConfusion h

/-- C10 (amended): the two `loadFill` definitions run the same section
scan; their outcomes coincide whenever the requested address is `0` and at
least one byte is copied (then the `context.cpp` zero-fill start, the final
address cursor, equals the copied-byte count and neither path throws). -/
theorem loadFill_copies_agree_at_zero (img : Image) (size : Nat) (buf0 : Buf)
    (h : bytesCopied img size 0 buf0 ≠ 0) :
    loadFillDummy img size 0 buf0 = loadFillContext img size 0 buf0 := by
  have hC : scanImageC img size 0 buf0 =
      ⟨(scanImage img size 0 buf0).buf, (scanImage img size 0 buf0).offset⟩ :=
    scanC_eq_scan size img.sections ⟨buf0, 0, 0⟩
  have hoff : (scanImage img size 0 buf0).offset =
      (scanImage img size 0 buf0).bytes_written := by
    simpa using scan_offset_eq_bw size img.sections ⟨buf0, 0, 0⟩
  unfold bytesCopied at h
  simp only [loadFillDummy, loadFillContext]
  rw [if_neg h, hC]
  dsimp only
  rw [hoff]

/-- C10 witness: a concrete image with a section at address `0`; one byte
is copied and the two definitions return the same result. -/
theorem loadFill_copies_agree_at_zero_witness :
    bytesCopied ⟨[⟨0, [5]⟩]⟩ 2 0 (fun _ => 9) ≠ 0 ∧
    loadFillDummy ⟨[⟨0, [5]⟩]⟩ 2 0 (fun _ => 9) =
      loadFillContext ⟨[⟨0, [5]⟩]⟩ 2 0 (fun _ => 9) :=
  ⟨by decide, loadFill_copies_agree_at_zero ⟨[⟨0, [5]⟩]⟩ 2 (fun _ => 9) (by decide)⟩

/-- A native `ghidra::VarnodeData` as seen by the emission callbacks: a
possibly-null space pointer plus offset and size. -/
structure VarnodeData where
  space : Option AddrSpace
  offset : Nat
  size : Nat
deriving DecidableEq, Repr

/-- The FFI varnode value object (`VarnodeInfoFFI`): its `space` handle is
a `unique_ptr`, null until assigned. -/
structure VarnodeInfoFFI where
  space : Option AddrSpace
  size : Nat
  offset : Nat
deriving DecidableEq, Repr

instance : Inhabited VarnodeInfoFFI := ⟨⟨none, 0, 0⟩⟩

/-- The FFI p-code record (`RawPcodeOp`), default-constructed and then
field-assigned by `PcodeCacher::dump` / `JinglePcodeEmitter::dump`. -/
structure RawPcodeOp where
  op : Nat
  has_output : Bool
  output : VarnodeInfoFFI
  space : Option AddrSpace
  inputs : List VarnodeInfoFFI
deriving DecidableEq, Repr

/-- Body of the input loop of `dump` (`jingle_pcode_emitter.cpp` lines
21–29 and the identical `PcodeCacher::dump` loops): translate one input
varnode, set the op's owning-instruction space from the emitted address,
and append the input. -/
def inputStep (addr : Address) (op : RawPcodeOp) (v : VarnodeData) : RawPcodeOp :=
  { op with
    inputs := op.inputs ++ [⟨v.space, v.size, v.offset⟩]
    space := some addr.space }

/-- Lines 11–20 of `jingle_pcode_emitter.cpp` (and the identical
`PcodeCacher::dump` prologues): default-construct the op, set the opcode,
set `has_output` to `false`, and populate `has_output`/`output` exactly
when the output varnode pointer and its space pointer are both non-null. -/
def outInit (opc : Nat) (outvar : Option VarnodeData) : RawPcodeOp :=
  match outvar with
  | none =>
    { op := opc, has_output := false, output := default, space := none, inputs := [] }
  | some ov =>
    match ov.space with
    | none =>
      { op := opc, has_output := false, output := default, space := none, inputs := [] }
    | some sp =>
      { op := opc, has_output := true
        output := { offset := ov.offset, size := ov.size, space := some sp }
        space := none, inputs := [] }

theorem outInit_none (opc : Nat) :
    outInit opc none =
      { op := opc, has_output := false, output := default,
        space := none, inputs := [] } := rfl

theorem outInit_some_none (opc : Nat) (ov : VarnodeData) (h : ov.space = none) :
    outInit opc (some ov) =
      { op := opc, has_output := false, output := default,
        space := none, inputs := [] } := by
  simp [outInit, h]

theorem outInit_some_some (opc : Nat) (ov : VarnodeData) (sp : AddrSpace)
    (h : ov.space = some sp) :
    outInit opc (some ov) =
      { op := opc, has_output := true
        output := { offset := ov.offset, size := ov.size, space := some sp }
        space := none, inputs := [] } := by
  simp [outInit, h]

theorem outInit_space (opc : Nat) (outvar : Option VarnodeData) :
    (outInit opc outvar).space = none := by
  rcases outvar with _ | ov
  · rfl
  · rcases hsp : ov.space with _ | sp
    · rw [outInit_some_none opc ov hsp]
    · rw [outInit_some_some opc ov sp hsp]

/-- `PcodeCacher::dump` / `JinglePcodeEmitter::dump`: build one
`RawPcodeOp` from an emission callback — the output-handling prologue
followed by the input loop. -/
def dumpOp (addr : Address) (opc : Nat) (outvar : Option VarnodeData)
    (vars : List VarnodeData) : RawPcodeOp :=
  vars.foldl (inputStep addr) (outInit opc outvar)

/-- One callback into the p-code sink appends one op to the owned list
(`ops.emplace_back(op)`). -/
structure PcodeEmission where
  addr : Address
  opc : Nat
  outvar : Option VarnodeData
  vars : List VarnodeData

/-- The p-code sink transition: one `dump` call appends one op. -/
def pcodeDump (ops : List RawPcodeOp) (em : PcodeEmission) : List RawPcodeOp :=
  ops ++ [dumpOp em.addr em.opc em.outvar em.vars]

/-- State of `AssemblyCacher`: two strings, empty by construction. -/
structure AsmState where
  mnem : String
  body : String
deriving DecidableEq, Repr

/-- `AssemblyCacher::dump`: store mnemonic and body verbatim, overwriting
the previous values. -/
def asmDump (_st : AsmState) (e : String × String) : AsmState :=
  { mnem := e.1, body := e.2 }

theorem inputsFold_preserves_head (addr : Address) (vars : List VarnodeData)
    (op : RawPcodeOp) :
    (vars.foldl (inputStep addr) op).op = op.op ∧
    (vars.foldl (inputStep addr) op).has_output = op.has_output ∧
    (vars.foldl (inputStep addr) op).output = op.output := by
  induction vars generalizing op with
  | nil => exact ⟨rfl, rfl, rfl⟩
  | cons v rest ih =>
    rw [List.foldl_cons]
    exact ih (inputStep addr op v)

theorem inputsFold_space (addr : Address) (vars : List VarnodeData)
    (op : RawPcodeOp) (h : vars ≠ []) :
    (vars.foldl (inputStep addr) op).space = some addr.space := by
  induction vars generalizing op with
  | nil => exact absurd rfl h
  | cons v rest ih =>
    rw [List.foldl_cons]
    by_cases hr : rest = []
    · subst hr
      rfl
    · exact ih (inputStep addr op v) hr

/-- C4: in every captured `RawPcodeOp`, "has no output" is an explicit
state: `has_output` is `true`, with the output fields populated from the
emitted output varnode, exactly when the emitted output varnode is present
(non-null with a non-null space); otherwise `has_output` is `false` and
the output field stays at its default — so a present zero-sized output
(`has_output = true`, `size = 0`) is distinguishable from no output. -/
theorem dumpOp_output_state (addr : Address) (opc : Nat)
    (outvar : Option VarnodeData) (vars : List VarnodeData) :
    ((dumpOp addr opc outvar vars).has_output = true ↔
      ∃ ov sp, outvar = some ov ∧ ov.space = some sp) ∧
    (∀ ov sp, outvar = some ov → ov.space = some sp →
      (dumpOp addr opc outvar vars).output = ⟨some sp, ov.size, ov.offset⟩) ∧
    ((dumpOp addr opc outvar vars).has_output = false →
      (dumpOp addr opc outvar vars).output = ⟨none, 0, 0⟩) := by
  refine ⟨?_, ?_, ?_⟩
  · constructor
    · intro h
      rcases houtvar : outvar with _ | ov
      · exfalso
        rw [houtvar] at h
        simp only [dumpOp, outInit_none] at h
        rw [(inputsFold_preserves_head addr vars _).2.1] at h
        exact absurd h (by simp)
      · rcases hsp : ov.space with _ | sp
        · exfalso
          rw [houtvar] at h
          simp only [dumpOp] at h
          rw [outInit_some_none opc ov hsp] at h
          rw [(inputsFold_preserves_head addr vars _).2.1] at h
          exact absurd h (by simp)
        · exact ⟨ov, sp, rfl, hsp⟩
    · rintro ⟨ov, sp, rfl, hsp⟩
      simp only [dumpOp]
      rw [outInit_some_some opc ov sp hsp]
      rw [(inputsFold_preserves_head addr vars _).2.1]
  · rintro ov sp rfl hsp
    simp only [dumpOp]
    rw [outInit_some_some opc ov sp hsp]
    rw [(inputsFold_preserves_head addr vars _).2.2]
  · intro h
    rcases houtvar : outvar with _ | ov
    · simp only [dumpOp, outInit_none]
      rw [(inputsFold_preserves_head addr vars _).2.2]
      rfl
    · rcases hsp : ov.space with _ | sp
      · simp only [dumpOp]
        rw [outInit_some_none opc ov hsp]
        rw [(inputsFold_preserves_head addr vars _).2.2]
        rfl
      · exfalso
        rw [houtvar] at h
        simp only [dumpOp] at h
        rw [outInit_some_some opc ov sp hsp] at h
        rw [(inputsFold_preserves_head addr vars _).2.1] at h
        exact absurd h (by simp)

/-- C4 witness: an output varnode of size zero yields `has_output = true`
with a zero-sized output record, while a null output varnode yields
`has_output = false` — the two states are distinct. -/
theorem dumpOp_output_state_witness :
    (dumpOp ⟨⟨3⟩, 7⟩ 1 (some ⟨some ⟨2⟩, 4, 0⟩) []).has_output = true ∧
    (dumpOp ⟨⟨3⟩, 7⟩ 1 (some ⟨some ⟨2⟩, 4, 0⟩) []).output = ⟨some ⟨2⟩, 0, 4⟩ ∧
    (dumpOp ⟨⟨3⟩, 7⟩ 1 none []).has_output = false :=
  ⟨(dumpOp_output_state ⟨⟨3⟩, 7⟩ 1 (some ⟨some ⟨2⟩, 4, 0⟩) []).1.mpr
      ⟨⟨some ⟨2⟩, 4, 0⟩, ⟨2⟩, rfl, rfl⟩,
    (dumpOp_output_state ⟨⟨3⟩, 7⟩ 1 (some ⟨some ⟨2⟩, 4, 0⟩) []).2.1
      ⟨some ⟨2⟩, 4, 0⟩ ⟨2⟩ rfl rfl,
    by decide⟩

/-- C9: the captured op's owning-instruction space field is assigned (to
the space of the emitted instruction address) only inside the input loop,
so it is set exactly when there is at least one input varnode and remains
at its null default when there are none. -/
theorem dumpOp_instr_space (addr : Address) (opc : Nat)
    (outvar : Option VarnodeData) (vars : List VarnodeData) :
    (vars = [] → (dumpOp addr opc outvar vars).space = none) ∧
    (vars ≠ [] → (dumpOp addr opc outvar vars).space = some addr.space) := by
  constructor
  · rintro rfl
    simp only [dumpOp, List.foldl_nil]
    exact outInit_space opc outvar
  · intro h
    simp only [dumpOp]
    exact inputsFold_space addr vars _ h

/-- C9 witness: one input varnode sets the owning-instruction space; the
same emission with no inputs leaves it unset. -/
theorem dumpOp_instr_space_witness :
    ((⟨none, 1, 2⟩ : VarnodeData) :: [] ≠ [] ∧
      (dumpOp ⟨⟨3⟩, 7⟩ 1 none [⟨none, 1, 2⟩]).space = some ⟨3⟩) ∧
    (dumpOp ⟨⟨3⟩, 7⟩ 1 none []).space = none :=
  ⟨⟨by decide, (dumpOp_instr_space ⟨⟨3⟩, 7⟩ 1 none [⟨none, 1, 2⟩]).2 (by decide)⟩,
    (dumpOp_instr_space ⟨⟨3⟩, 7⟩ 1 none []).1 rfl⟩

/-- The FFI disassembly record (`Disassembly`): mnemonic and argument
body. -/
structure Disassembly where
  mnemonic : String
  args : String
deriving DecidableEq, Repr

/-- The FFI instruction record (`InstructionFFI`). -/
structure InstructionFFI where
  ops : List RawPcodeOp
  disassembly : Disassembly
  address : Nat
  length : Nat
deriving DecidableEq, Repr

/-- Modelled from the spec: the decoder engine (vendored ghidra `Sleigh`,
not under `src/`) is a black box that, per address, drives
`printAssembly` (a sequence of assembly-sink callbacks), `oneInstruction`
(a sequence of p-code-sink callbacks in emission order), and reports an
instruction byte length via `instructionLength`; `getDefaultCodeSpace`
names the default code space. -/
structure SleighEngine where
  defaultCodeSpace : AddrSpace
  asmEmits : Address → List (String × String)
  pcodeEmits : Address → List PcodeEmission
  instLength : Address → Nat

/-- `SleighImage::get_one_instruction` (`sleigh_image.cpp` lines 85–101)
and the identical `ContextFFI::get_one_instruction`: construct fresh
sinks, form the address `(default code space, offset)`, run the assembly
pass and the p-code pass, read the instruction length, and assemble the
record. -/
def get_one_instruction (e : SleighEngine) (offset : Nat) : InstructionFFI :=
  let a : Address := ⟨e.defaultCodeSpace, offset⟩
  let pcode := (e.pcodeEmits a).foldl pcodeDump []
  let assembly := (e.asmEmits a).foldl asmDump ⟨"", ""⟩
  { ops := pcode
    disassembly := { mnemonic := assembly.mnem, args := assembly.body }
    address := offset
    length := e.instLength a }

theorem pcodeFold_eq_map (l : List PcodeEmission) (acc : List RawPcodeOp) :
    l.foldl pcodeDump acc =
      acc ++ l.map (fun em => dumpOp em.addr em.opc em.outvar em.vars) := by
  induction l generalizing acc with
  | nil => simp
  | cons em rest ih =>
    rw [List.foldl_cons, List.map_cons, ih]
    simp [pcodeDump]

/-- C3: `decode_one` starts from fresh sinks, uses the address
`(default code space, offset)`, and returns an `Instruction` whose
starting address is the given offset, whose length is the engine-reported
instruction length at that address, whose disassembly strings are exactly
the ones accumulated in the fresh assembly sink, and whose op list is
exactly the ordered image of the p-code emissions of that call (one op
appended per callback). -/
theorem get_one_instruction_spec (e : SleighEngine) (offset : Nat) :
    (get_one_instruction e offset).address = offset ∧
    (get_one_instruction e offset).length =
      e.instLength ⟨e.defaultCodeSpace, offset⟩ ∧
    (get_one_instruction e offset).disassembly.mnemonic =
      ((e.asmEmits ⟨e.defaultCodeSpace, offset⟩).foldl asmDump ⟨"", ""⟩).mnem ∧
    (get_one_instruction e offset).disassembly.args =
      ((e.asmEmits ⟨e.defaultCodeSpace, offset⟩).foldl asmDump ⟨"", ""⟩).body ∧
    (get_one_instruction e offset).ops =
      (e.pcodeEmits ⟨e.defaultCodeSpace, offset⟩).map
        (fun em => dumpOp em.addr em.opc em.outvar em.vars) := by
  refine ⟨rfl, rfl, rfl, rfl, ?_⟩
  show (e.pcodeEmits ⟨e.defaultCodeSpace, offset⟩).foldl pcodeDump [] = _
  rw [pcodeFold_eq_map]
  simp

/-- A varnode key of the native register table: the total-order
ingredients (space identity, offset, size). -/
structure VarnodeKey where
  spaceIndex : Nat
  offset : Nat
  size : Nat
deriving DecidableEq, Repr

/-- Modelled from the spec: the strict total order over
(space identity, offset, size) by which the vendored native register
table (`std::map` filled by `Sleigh::getAllRegisters`, not under `src/`)
keeps its keys; lexicographic. -/
def vnLt (a b : VarnodeKey) : Prop :=
  a.spaceIndex < b.spaceIndex ∨
    (a.spaceIndex = b.spaceIndex ∧
      (a.offset < b.offset ∨ (a.offset = b.offset ∧ a.size < b.size)))

instance (a b : VarnodeKey) : Decidable (vnLt a b) := by
  unfold vnLt
  infer_instance

/-- Key order lifted to table entries (key, register name). -/
def regLt (a b : VarnodeKey × String) : Prop := vnLt a.1 b.1

instance (a b : VarnodeKey × String) : Decidable (regLt a b) := by
  unfold regLt
  infer_instance

/-- `varnodeToFFI` (`varnode_translation.cpp`): wrap the space handle and
copy offset and size. -/
def varnodeToFFI (k : VarnodeKey) : VarnodeInfoFFI :=
  { space := some ⟨k.spaceIndex⟩, size := k.size, offset := k.offset }

/-- The FFI register record (`RegisterInfoFFI`). -/
structure RegisterInfoFFI where
  varnode : VarnodeInfoFFI
  name : String
deriving DecidableEq, Repr

/-- `collectRegInfo` (`varnode_translation.cpp`): translate one table
entry. -/
def collectRegInfo (el : VarnodeKey × String) : RegisterInfoFFI :=
  { varnode := varnodeToFFI el.1, name := el.2 }

/-- `SleighImage::getRegisters` (`sleigh_image.cpp` lines 104–113) and the
identical `ContextFFI::getRegisters`: materialize the whole native table
in its iteration order into an owned vector. -/
def getRegisters (reglist : List (VarnodeKey × String)) : List RegisterInfoFFI :=
  reglist.map collectRegInfo

/-- The key order carried over to translated FFI varnodes. -/
def ffiLt (a b : VarnodeInfoFFI) : Prop :=
  (a.space.map AddrSpace.index).getD 0 < (b.space.map AddrSpace.index).getD 0 ∨
    ((a.space.map AddrSpace.index).getD 0 = (b.space.map AddrSpace.index).getD 0 ∧
      (a.offset < b.offset ∨ (a.offset = b.offset ∧ a.size < b.size)))

theorem vnLt_asymm (a b : VarnodeKey) (h1 : vnLt a b) (h2 : vnLt b a) : False := by
  unfold vnLt at h1 h2
  omega

theorem vnLt_trichotomy (a b : VarnodeKey) : vnLt a b ∨ a = b ∨ vnLt b a := by
  obtain ⟨a1, a2, a3⟩ := a
  obtain ⟨b1, b2, b3⟩ := b
  simp only [vnLt, VarnodeKey.mk.injEq]
  omega

theorem ffiLt_of_vnLt (a b : VarnodeKey) (h : vnLt a b) :
    ffiLt (varnodeToFFI a) (varnodeToFFI b) := by
  unfold vnLt at h
  unfold ffiLt varnodeToFFI
  simpa using h

/-- C5: the register listing is a fully materialized sequence ordered by
the strict total order on (space identity, offset, size): the key order is
total (trichotomy), any two table iterations holding the same entries in
key order translate to element-for-element equal sequences, and the
returned sequence is itself strictly ordered by the translated key
order. -/
theorem getRegisters_deterministic
    (l₁ l₂ : List (VarnodeKey × String))
    (h₁ : l₁.Pairwise regLt) (h₂ : l₂.Pairwise regLt) (hp : l₁.Perm l₂) :
    getRegisters l₁ = getRegisters l₂ ∧
    (getRegisters l₁).Pairwise (fun a b => ffiLt a.varnode b.varnode) ∧
    (∀ a b : VarnodeKey, vnLt a b ∨ a = b ∨ vnLt b a) := by
  haveI : IsAntisymm (VarnodeKey × String) regLt :=
    ⟨fun a b hab hba => (vnLt_asymm a.1 b.1 hab hba).elim⟩
  have hl : l₁ = l₂ := List.eq_of_perm_of_sorted hp h₁ h₂
  refine ⟨by rw [hl], ?_, vnLt_trichotomy⟩
  unfold getRegisters
  rw [List.pairwise_map]
  exact h₁.imp fun hab => ffiLt_of_vnLt _ _ hab

/-- C5 witness: a two-entry table in key order; re-listing the same table
yields the same sequence, in key order. -/
theorem getRegisters_deterministic_witness :
    getRegisters [(⟨0, 0, 1⟩, "r0"), (⟨0, 8, 1⟩, "r1")] =
      getRegisters [(⟨0, 0, 1⟩, "r0"), (⟨0, 8, 1⟩, "r1")] ∧
    (getRegisters [(⟨0, 0, 1⟩, "r0"), (⟨0, 8, 1⟩, "r1")]).Pairwise
      (fun a b => ffiLt a.varnode b.varnode) :=
  ⟨(getRegisters_deterministic [(⟨0, 0, 1⟩, "r0"), (⟨0, 8, 1⟩, "r1")]
      [(⟨0, 0, 1⟩, "r0"), (⟨0, 8, 1⟩, "r1")]
      (by simp [List.pairwise_cons, regLt, vnLt])
      (by simp [List.pairwise_cons, regLt, vnLt])
      (List.Perm.refl _)).1,
    (getRegisters_deterministic [(⟨0, 0, 1⟩, "r0"), (⟨0, 8, 1⟩, "r1")]
      [(⟨0, 0, 1⟩, "r0"), (⟨0, 8, 1⟩, "r1")]
      (by simp [List.pairwise_cons, regLt, vnLt])
      (by simp [List.pairwise_cons, regLt, vnLt])
      (List.Perm.refl _)).2.1⟩

/-- One catalog entry of the address-space manager: the native identity
(the raw `AddrSpace *` value handed back by the engine, as a number) plus
the space's payload. -/
structure SpaceEntry where
  ptrId : Nat
  name : String
deriving DecidableEq, Repr

/-- The message of the bare string throw in
`AddrSpaceManagerHandle::getSpaceFromPointer`. -/
def horribleMsg : String := "Something horrible has happened"

/-- The scan loop of `getSpaceFromPointer`
(`addrspace_manager_handle.cpp` lines 13–17): walk the catalog in index
order comparing native identities; also count the entries inspected. -/
def spaceScan (idx : Nat) : List SpaceEntry → Option SpaceEntry × Nat
  | [] => (none, 0)
  | s :: rest =>
    if s.ptrId = idx then (some s, 1)
    else ((spaceScan idx rest).1, (spaceScan idx rest).2 + 1)

/-- `AddrSpaceManagerHandle::getSpaceFromPointer`
(`addrspace_manager_handle.cpp` lines 12–19): return the catalog entry
whose native identity matches, else throw a bare string — which the
`exception.h` bridge does not catch. -/
def getSpaceFromPointer (spaces : List SpaceEntry) (idx : Nat) :
    Except CppException SpaceEntry :=
  match (spaceScan idx spaces).1 with
  | some s => .ok s
  | none => .error (.rawString horribleMsg)

theorem spaceScan_count_le (idx : Nat) (spaces : List SpaceEntry) :
    (spaceScan idx spaces).2 ≤ spaces.length := by
  induction spaces with
  | nil => exact Nat.le_refl 0
  | cons s rest ih =>
    unfold spaceScan
    split
    · simp
    · simpa using Nat.succ_le_succ ih

theorem spaceScan_found (idx : Nat) (spaces : List SpaceEntry)
    (h : ∃ s ∈ spaces, s.ptrId = idx) :
    ∃ s, (spaceScan idx spaces).1 = some s ∧ s ∈ spaces ∧ s.ptrId = idx := by
  induction spaces with
  | nil => simp at h
  | cons t rest ih =>
    unfold spaceScan
    by_cases ht : t.ptrId = idx
    · exact ⟨t, by simp [ht], List.mem_cons_self t rest, ht⟩
    · rcases h with ⟨s, hs, hid⟩
      rcases List.mem_cons.mp hs with rfl | hs'
      · exact absurd hid ht
      · rcases ih ⟨s, hs', hid⟩ with ⟨u, hu1, hu2, hu3⟩
        exact ⟨u, by simp [ht, hu1], List.mem_cons_of_mem _ hu2, hu3⟩

theorem spaceScan_not_found (idx : Nat) (spaces : List SpaceEntry)
    (h : ∀ s ∈ spaces, s.ptrId ≠ idx) :
    (spaceScan idx spaces).1 = none := by
  induction spaces with
  | nil => rfl
  | cons t rest ih =>
    unfold spaceScan
    rw [if_neg (h t (List.mem_cons_self t rest))]
    exact ih fun s hs => h s (List.mem_cons_of_mem _ hs)

/-- C6: lookup by native identity inspects at most the catalog's space
count; when some entry carries the identity a matching entry is returned,
and when none does the call throws the bare-string
internal-consistency error, which the `exception.h` bridge does not catch
(fatal/terminate), unlike the typed recoverable errors. -/
theorem getSpaceFromPointer_spec (spaces : List SpaceEntry) (idx : Nat) :
    (spaceScan idx spaces).2 ≤ spaces.length ∧
    ((∃ s ∈ spaces, s.ptrId = idx) →
      ∃ s, getSpaceFromPointer spaces idx = .ok s ∧ s ∈ spaces ∧ s.ptrId = idx) ∧
    ((∀ s ∈ spaces, s.ptrId ≠ idx) →
      getSpaceFromPointer spaces idx = .error (.rawString horribleMsg) ∧
      caughtByBridge (.rawString horribleMsg) = false) := by
  refine ⟨spaceScan_count_le idx spaces, ?_, ?_⟩
  · intro h
    rcases spaceScan_found idx spaces h with ⟨s, h1, h2, h3⟩
    exact ⟨s, by simp [getSpaceFromPointer, h1], h2, h3⟩
  · intro h
    exact ⟨by simp [getSpaceFromPointer, spaceScan_not_found idx spaces h], rfl⟩

/-- C6 witness: a concrete two-entry catalog, one matching lookup and one
unknown identity. -/
theorem getSpaceFromPointer_spec_witness :
    (getSpaceFromPointer [⟨10, "ram"⟩, ⟨11, "register"⟩] 11).toOption.isSome = true ∧
    getSpaceFromPointer [⟨10, "ram"⟩, ⟨11, "register"⟩] 12 =
      .error (.rawString horribleMsg) ∧
    caughtByBridge (.rawString horribleMsg) = false :=
  ⟨by
    obtain ⟨s, h1, h2, h3⟩ :=
      (getSpaceFromPointer_spec [⟨10, "ram"⟩, ⟨11, "register"⟩] 11).2.1 (by decide)
    rw [h1]
    rfl,
    ((getSpaceFromPointer_spec [⟨10, "ram"⟩, ⟨11, "register"⟩] 12).2.2
      (by decide)).1,
    ((getSpaceFromPointer_spec [⟨10, "ram"⟩, ⟨11, "register"⟩] 12).2.2
      (by decide)).2⟩

/-- One entry of the `defines` option of `CompileParams`
(`compile.rs.h`). -/
structure DefineEntry where
  name : String
  value : String
deriving DecidableEq, Repr

/-- `CompileParams` (`compile.rs.h` as consumed by `compile.cpp`). -/
structure CompileParams where
  defines : List DefineEntry
  unnecessary_pcode_warning : Bool
  lenient_conflict : Bool
  all_collision_warning : Bool
  all_nop_warning : Bool
  dead_temp_warning : Bool
  enforce_local_keyword : Bool
  large_temporary_warning : Bool
  case_sensitive_register_names : Bool

/-- The defines loop of `compile` (`compile.cpp` lines 10–14), kept
faithful to the source: both the key and the stored string are read from
`item.name` (`std::string value = item.name.operator std::string();`),
so the map binds name to name. -/
def buildDefines (ds : List DefineEntry) : String → Option String :=
  ds.foldl (fun m item => fun k => if k = item.name then some item.name else m k)
    (fun _ => none)

/-- The argument record of `SleighCompile::setAllOptions` as assembled by
`compile` (`compile.cpp` lines 15–18). -/
structure CompilerOptions where
  defines : String → Option String
  unnecessary_pcode_warning : Bool
  lenient_conflict : Bool
  all_collision_warning : Bool
  all_nop_warning : Bool
  dead_temp_warning : Bool
  enforce_local_keyword : Bool
  large_temporary_warning : Bool
  case_sensitive_register_names : Bool

/-- `compile` (`compile.cpp` lines 5–20): build the defines map and
forward it together with the eight boolean flags, in source order, to the
compiler engine before running the compilation. -/
def compileSetAllOptions (params : CompileParams) : CompilerOptions :=
  { defines := buildDefines params.defines
    unnecessary_pcode_warning := params.unnecessary_pcode_warning
    lenient_conflict := params.lenient_conflict
    all_collision_warning := params.all_collision_warning
    all_nop_warning := params.all_nop_warning
    dead_temp_warning := params.dead_temp_warning
    enforce_local_keyword := params.enforce_local_keyword
    large_temporary_warning := params.large_temporary_warning
    case_sensitive_register_names := params.case_sensitive_register_names }

/-- C7: evaluation of the defines forwarding at the failing input
`{name := "ALPHA", value := "BETA"}` — the engine receives the mapping
`ALPHA ↦ "ALPHA"`, not the claimed `ALPHA ↦ "BETA"`, because `compile.cpp`
reads the stored string from `item.name` instead of `item.value`; the
eight boolean flags are forwarded correctly. -/
theorem compile_defines_eval :
    (compileSetAllOptions
        ⟨[⟨"ALPHA", "BETA"⟩], true, false, true, false, true, false, true, false⟩).defines
      "ALPHA" = some "ALPHA" ∧
    (compileSetAllOptions
        ⟨[⟨"ALPHA", "BETA"⟩], true, false, true, false, true, false, true, false⟩).defines
      "ALPHA" ≠ some "BETA" ∧
    (compileSetAllOptions
        ⟨[⟨"ALPHA", "BETA"⟩], true, false, true, false, true, false, true, false⟩).unnecessary_pcode_warning
      = true ∧
    (compileSetAllOptions
        ⟨[⟨"ALPHA", "BETA"⟩], true, false, true, false, true, false, true, false⟩).lenient_conflict
      = false :=
  ⟨rfl, by decide, rfl, rfl⟩

/-- The catalog a decode call reads: spaces, registers, and the default
code space (never mutated by `get_one_instruction`). -/
structure Catalog where
  spaces : List SpaceEntry
  registers : List (VarnodeKey × String)
  defaultCode : AddrSpace

/-- `Sleigh::getRegister`-style lookup on the catalog. -/
def catGetRegister (c : Catalog) (nm : String) : Option VarnodeKey :=
  (c.registers.find? (fun p => p.2 == nm)).map (fun p => p.1)

/-- `getSpaceByIndex`-style lookup on the catalog. -/
def catGetSpaceByIndex (c : Catalog) (i : Nat) : Option SpaceEntry :=
  c.spaces.get? i

/-- What one engine decode pass produces when it succeeds. -/
structure EngineOutput where
  asm : List (String × String)
  pcode : List PcodeEmission
  len : Nat

/-- Modelled from the spec: the stateful decoder engine (vendored sleigh
code, not under `src/`); a decode pass may fail with a typed exception
and may mutate the engine's private caches (`σ`), which are disjoint from
the catalogs. -/
structure EngineM (σ : Type) where
  run : σ → Address → Except CppException EngineOutput × σ

/-- Orchestrator state: the immutable catalogs plus the engine's private
mutable state. -/
structure OrchState (σ : Type) where
  catalog : Catalog
  eng : σ

/-- `get_one_instruction` over the stateful engine model: form the
address from the catalog's default code space, run the engine pass
(threading its private state), and either propagate the exception or
assemble the instruction record from fresh sinks. -/
def decode_one {σ : Type} (e : EngineM σ) (st : OrchState σ) (offset : Nat) :
    Except CppException InstructionFFI × OrchState σ :=
  match e.run st.eng ⟨st.catalog.defaultCode, offset⟩ with
  | (.error ex, s') => (.error ex, { st with eng := s' })
  | (.ok out, s') =>
    (.ok { ops := out.pcode.foldl pcodeDump []
           disassembly := { mnemonic := (out.asm.foldl asmDump ⟨"", ""⟩).mnem
                            args := (out.asm.foldl asmDump ⟨"", ""⟩).body }
           address := offset
           length := out.len },
      { st with eng := s' })

/-- C8: a failed `decode_one` leaves the Register and AddressSpace
catalogs unchanged — every register and space lookup after the failed
call returns what it returned before. -/
theorem decode_one_error_frame {σ : Type} (e : EngineM σ) (st : OrchState σ)
    (offset : Nat) (ex : CppException)
    (h : (decode_one e st offset).1 = .error ex) :
    (decode_one e st offset).2.catalog = st.catalog ∧
    (∀ nm, catGetRegister (decode_one e st offset).2.catalog nm =
      catGetRegister st.catalog nm) ∧
    (∀ i, catGetSpaceByIndex (decode_one e st offset).2.catalog i =
      catGetSpaceByIndex st.catalog i) := by
  have hcat : (decode_one e st offset).2.catalog = st.catalog := by
    unfold decode_one
    rcases e.run st.eng ⟨st.catalog.defaultCode, offset⟩ with ⟨r, s'⟩
    rcases r with ex' | out
    · rfl
    · rfl
  exact ⟨hcat, fun nm => by rw [hcat], fun i => by rw [hcat]⟩

/-- Engine that fails every decode with a `DecoderError`, for the C8
witness. -/
def failEngine : EngineM Unit :=
  ⟨fun s _ => (.error (.decoder "no matching constructor"), s)⟩

/-- A concrete orchestrator state for the C8 witness. -/
def sampleState : OrchState Unit :=
  ⟨⟨[⟨10, "ram"⟩], [(⟨1, 0, 8⟩, "r0")], ⟨0⟩⟩, ()⟩

/-- C8 witness: the failing engine really fails, and the catalogs and
their lookups are unchanged afterwards. -/
theorem decode_one_error_frame_witness :
    (decode_one failEngine sampleState 0).1 =
      .error (.decoder "no matching constructor") ∧
    (decode_one failEngine sampleState 0).2.catalog = sampleState.catalog ∧
    catGetRegister (decode_one failEngine sampleState 0).2.catalog "r0" =
      catGetRegister sampleState.catalog "r0" :=
  ⟨rfl,
    (decode_one_error_frame failEngine sampleState 0
      (.decoder "no matching constructor") rfl).1,
    (decode_one_error_frame failEngine sampleState 0
      (.decoder "no matching constructor") rfl).2.1 "r0"⟩

end Jingle
